import Mathlib

/-!
Verification of the computational core of the `crispr-design` repository.

The Python sources (`src/find_guides.py`, `src/score_guides.py`,
`src/offtarget_prediction.py`) are embedded shallowly:
DNA sequences are `List Char`, pandas data frames are lists of records,
Python `int`/`float` arithmetic is modelled over `ℕ`/`ℤ`/`ℚ`
(the float values occurring here are small decimal constants, modelled
exactly as rationals), and `float('inf')` is modelled with `ℕ∞`.
-/

namespace CrisprDesign

/-- The 26 lowercase-to-uppercase ASCII pairs of Python `str.upper`.  The
repository only ever upcases DNA/IUPAC letters, so the ASCII table is what
matters. -/
def upperTable : List (Char × Char) :=
  [('a','A'), ('b','B'), ('c','C'), ('d','D'), ('e','E'), ('f','F'),
   ('g','G'), ('h','H'), ('i','I'), ('j','J'), ('k','K'), ('l','L'),
   ('m','M'), ('n','N'), ('o','O'), ('p','P'), ('q','Q'), ('r','R'),
   ('s','S'), ('t','T'), ('u','U'), ('v','V'), ('w','W'), ('x','X'),
   ('y','Y'), ('z','Z')]

/-- Python `str.upper` on one character. -/
def upperChar (c : Char) : Char := (upperTable.lookup c).getD c

/-- Python `str.upper` on a string (modelled as a list of characters). -/
def pyUpper (s : List Char) : List Char := s.map upperChar

/-- `Bio.Seq`'s ambiguous-DNA complement table (`A↔T`, `C↔G`, `M↔K`, `R↔Y`,
`W`, `S`, `V↔B`, `H↔D`, `X`, `N`, in both cases). -/
def complementTable : List (Char × Char) :=
  [('A','T'), ('C','G'), ('G','C'), ('T','A'), ('M','K'), ('R','Y'),
   ('W','W'), ('S','S'), ('Y','R'), ('K','M'), ('V','B'), ('H','D'),
   ('D','H'), ('B','V'), ('X','X'), ('N','N'),
   ('a','t'), ('c','g'), ('g','c'), ('t','a'), ('m','k'), ('r','y'),
   ('w','w'), ('s','s'), ('y','r'), ('k','m'), ('v','b'), ('h','d'),
   ('d','h'), ('b','v'), ('x','x'), ('n','n')]

/-- `Bio.Seq` complement of one base; characters outside the table pass
through unchanged, as `bytes.translate` leaves unmapped bytes unchanged. -/
def complementChar (c : Char) : Char := (complementTable.lookup c).getD c

/-- `Bio.Seq.reverse_complement`: complement every base, then reverse. -/
def reverse_complement (s : List Char) : List Char :=
  (s.map complementChar).reverse

/-- Python slice `s[a:b]` for `0 ≤ a ≤ b` (the only shape of slice the
sources use): truncates silently at the end of the list. -/
def pySlice (l : List Char) (a b : ℕ) : List Char :=
  (l.drop a).take (b - a)

/-- Python `range(n)` where `n` is a possibly negative `int`:
empty for `n ≤ 0`. -/
def pyRange (n : ℤ) : List ℕ := List.range n.toNat

/-- The ASCII letters: every character moved by `upperChar` or by
`complementChar` is in this list, which lets the character-level lemmas
below be settled by finite checks. -/
def letterChars : List Char :=
  ['a','b','c','d','e','f','g','h','i','j','k','l','m','n','o','p','q','r',
   's','t','u','v','w','x','y','z',
   'A','B','C','D','E','F','G','H','I','J','K','L','M','N','O','P','Q','R',
   'S','T','U','V','W','X','Y','Z']

theorem lookup_eq_none_of_not_mem_fst {α β : Type} [BEq α] [LawfulBEq α]
    {l : List (α × β)} {c : α}
    (h : c ∉ l.map Prod.fst) : l.lookup c = none := by
  induction l with
  | nil => rfl
  | cons p rest ih =>
      simp only [List.map_cons, List.mem_cons, not_or] at h
      have hb : (c == p.1) = false := beq_eq_false_iff_ne.mpr h.1
      simp only [List.lookup, hb]
      exact ih h.2

theorem upperChar_of_not_letter {c : Char} (h : c ∉ letterChars) :
    upperChar c = c := by
  have hk : c ∉ upperTable.map Prod.fst := fun hm =>
    h (List.all_eq_true.mp (show (upperTable.map Prod.fst).all
      (fun d => decide (d ∈ letterChars)) = true by decide) c hm |> of_decide_eq_true)
  simp [upperChar, lookup_eq_none_of_not_mem_fst hk]

theorem complementChar_of_not_letter {c : Char} (h : c ∉ letterChars) :
    complementChar c = c := by
  have hk : c ∉ complementTable.map Prod.fst := fun hm =>
    h (List.all_eq_true.mp (show (complementTable.map Prod.fst).all
      (fun d => decide (d ∈ letterChars)) = true by decide) c hm |> of_decide_eq_true)
  simp [complementChar, lookup_eq_none_of_not_mem_fst hk]

theorem upperChar_idem (c : Char) : upperChar (upperChar c) = upperChar c := by
  by_cases hc : c ∈ letterChars
  · exact of_decide_eq_true <| List.all_eq_true.mp
      (show letterChars.all
          (fun c => decide (upperChar (upperChar c) = upperChar c)) = true
        by decide) c hc
  · rw [upperChar_of_not_letter hc, upperChar_of_not_letter hc]

theorem upperChar_complementChar (c : Char) :
    upperChar (complementChar c) = complementChar (upperChar c) := by
  by_cases hc : c ∈ letterChars
  · exact of_decide_eq_true <| List.all_eq_true.mp
      (show letterChars.all
          (fun c =>
            decide (upperChar (complementChar c) = complementChar (upperChar c)))
          = true by decide) c hc
  · rw [upperChar_of_not_letter hc, complementChar_of_not_letter hc,
      upperChar_of_not_letter hc]

theorem upperChar_complementChar_upperChar (c : Char) :
    upperChar (complementChar (upperChar c)) = complementChar (upperChar c) := by
  rw [upperChar_complementChar, upperChar_idem]

theorem pyUpper_idem (l : List Char) : pyUpper (pyUpper l) = pyUpper l := by
  simp [pyUpper, Function.comp_def, upperChar_idem]

theorem pyUpper_reverse_complement_pyUpper (l : List Char) :
    pyUpper (reverse_complement (pyUpper l)) = reverse_complement (pyUpper l) := by
  simp [pyUpper, reverse_complement, List.map_reverse, Function.comp_def,
    upperChar_complementChar_upperChar]

theorem length_pyUpper (l : List Char) : (pyUpper l).length = l.length := by
  simp [pyUpper]

theorem length_reverse_complement (l : List Char) :
    (reverse_complement l).length = l.length := by
  simp [reverse_complement]

theorem length_pySlice (l : List Char) (a b : ℕ) :
    (pySlice l a b).length = min (b - a) (l.length - a) := by
  simp [pySlice]

theorem getElem?_pySlice {l : List Char} {a b k : ℕ} (h : k < b - a) :
    (pySlice l a b)[k]? = l[a + k]? := by
  simp [pySlice, List.getElem?_take, h, List.getElem?_drop]

/-! ## `src/find_guides.py` -/

/-- One row of the data frame built by `find_all_guides`. -/
structure Guide where
  guide_sequence : List Char
  pam_site : ℕ
  pam_sequence : List Char
  strand : Char
  full_target : List Char
deriving DecidableEq, Repr

/-- `find_pam_sites` (src/find_guides.py): positions `i` scanned over
`range(len(sequence) - 2)` where the slice `sequence[i+1:i+3]` equals the
PAM pattern (default `"GG"`). -/
def find_pam_sites (sequence : List Char) (pam_pattern : List Char := ['G','G']) :
    List ℕ :=
  let s := pyUpper sequence
  (pyRange ((s.length : ℤ) - 2)).filter fun i =>
    decide (pySlice s (i + 1) (i + 3) = pam_pattern)

/-- `extract_guide_sequence` (src/find_guides.py): the `guide_length` bases
immediately before the PAM; `none` when the PAM is too close to the start
(`guide_start < 0` over Python's `int`) or the slice comes back short. -/
def extract_guide_sequence (sequence : List Char) (pam_position : ℕ)
    (guide_length : ℕ := 20) : Option (List Char) :=
  let s := pyUpper sequence
  if (pam_position : ℤ) - (guide_length : ℤ) < 0 then none
  else
    let guide := pySlice s (pam_position - guide_length) pam_position
    if guide.length ≠ guide_length then none else some guide

/-- `find_all_guides` (src/find_guides.py): scan the uppercased sequence and
its reverse complement for PAM sites, extract the 20-base guide before each;
reverse-strand PAM offsets `p` are recorded at forward coordinate
`len(sequence) - p - 3`.  (`if guide:` in the source is Python truthiness;
an extracted guide is a 20-character string, never empty, so it is exactly
the `some` test.)  The subtraction in the reverse-strand coordinate is over
`ℕ` here; it never truncates because every PAM offset `p` satisfies
`p + 3 ≤ len(sequence)`. -/
def find_all_guides (sequence : List Char) : List Guide :=
  let s := pyUpper sequence
  let fwd := (find_pam_sites s).filterMap fun pam_pos =>
    (extract_guide_sequence s pam_pos).map fun guide =>
      let pam := pySlice s pam_pos (pam_pos + 3)
      ⟨guide, pam_pos, pam, '+', guide ++ pam⟩
  let rev_seq := reverse_complement s
  let bwd := (find_pam_sites rev_seq).filterMap fun pam_pos =>
    (extract_guide_sequence rev_seq pam_pos).map fun guide =>
      let pam := pySlice rev_seq pam_pos (pam_pos + 3)
      ⟨guide, sequence.length - pam_pos - 3, pam, '-', guide ++ pam⟩
  fwd ++ bwd

theorem take_two_eq_pair {d : List Char} {x y : Char} :
    d.take 2 = [x, y] ↔ (d[0]? = some x ∧ d[1]? = some y) := by
  match d with
  | [] => simp
  | [a] => simp
  | a :: b :: rest => simp [List.take_succ_cons]

/-- Characterization of `find_pam_sites`: `i` is reported exactly when the
two characters after `i` in the uppercased sequence are `G`, `G`. -/
theorem mem_find_pam_sites {s : List Char} {i : ℕ} :
    i ∈ find_pam_sites s ↔
      ((pyUpper s)[i + 1]? = some 'G' ∧ (pyUpper s)[i + 2]? = some 'G') := by
  have hslice : pySlice (pyUpper s) (i + 1) (i + 3) = ['G', 'G'] ↔
      ((pyUpper s)[i + 1]? = some 'G' ∧ (pyUpper s)[i + 2]? = some 'G') := by
    have h2 : i + 3 - (i + 1) = 2 := by omega
    rw [pySlice, h2, take_two_eq_pair, List.getElem?_drop, List.getElem?_drop]
  constructor
  · intro hm
    rw [find_pam_sites] at hm
    simp only [List.mem_filter, pyRange, List.mem_range, decide_eq_true_eq] at hm
    exact hslice.mp hm.2
  · intro hg
    rw [find_pam_sites]
    simp only [List.mem_filter, pyRange, List.mem_range, decide_eq_true_eq]
    refine ⟨?_, hslice.mpr hg⟩
    have : i + 2 < (pyUpper s).length := by
      have := hg.2
      by_contra hn
      rw [List.getElem?_eq_none (by omega)] at this
      exact Option.noConfusion this
    omega

/-- Every reported PAM offset leaves room for the 3-base PAM. -/
theorem find_pam_sites_add_three_le {s : List Char} {i : ℕ}
    (h : i ∈ find_pam_sites s) : i + 3 ≤ s.length := by
  have hg := (mem_find_pam_sites.mp h).2
  have : i + 2 < (pyUpper s).length := by
    by_contra hn
    rw [List.getElem?_eq_none (by omega)] at hg
    exact Option.noConfusion hg
  rw [length_pyUpper] at this
  omega

/-- Characterization of `extract_guide_sequence` at the default guide
length 20: it yields a guide exactly when the PAM offset is between 20 and
the sequence length, and the guide is the 20-base slice before the PAM. -/
theorem extract_guide_sequence_eq_some {x : List Char} {p : ℕ} {gd : List Char} :
    extract_guide_sequence x p = some gd ↔
      (20 ≤ p ∧ p ≤ x.length ∧ gd = pySlice (pyUpper x) (p - 20) p) := by
  rw [extract_guide_sequence]
  by_cases h20 : 20 ≤ p
  · rw [if_neg (by omega)]
    have hlen : (pySlice (pyUpper x) (p - 20) p).length =
        min 20 (x.length - (p - 20)) := by
      rw [length_pySlice, length_pyUpper]
      congr 1
      omega
    by_cases hp : p ≤ x.length
    · rw [if_neg (by omega)]
      constructor
      · intro h
        exact ⟨h20, hp, (Option.some_inj.mp h).symm⟩
      · rintro ⟨-, -, rfl⟩
        rfl
    · rw [if_pos (by omega)]
      constructor
      · intro h
        exact Option.noConfusion h
      · rintro ⟨-, hc, -⟩
        omega
  · rw [if_pos (by omega)]
    constructor
    · intro h
      exact Option.noConfusion h
    · rintro ⟨hc, -, -⟩
      omega

/-- Membership in the output of `find_all_guides`, split by strand. -/
theorem mem_find_all_guides {s : List Char} {g : Guide} :
    g ∈ find_all_guides s ↔
      ((∃ p gd, p ∈ find_pam_sites (pyUpper s) ∧
          extract_guide_sequence (pyUpper s) p = some gd ∧
          g = ⟨gd, p, pySlice (pyUpper s) p (p + 3), '+',
               gd ++ pySlice (pyUpper s) p (p + 3)⟩) ∨
       (∃ p gd, p ∈ find_pam_sites (reverse_complement (pyUpper s)) ∧
          extract_guide_sequence (reverse_complement (pyUpper s)) p = some gd ∧
          g = ⟨gd, s.length - p - 3,
               pySlice (reverse_complement (pyUpper s)) p (p + 3), '-',
               gd ++ pySlice (reverse_complement (pyUpper s)) p (p + 3)⟩)) := by
  rw [find_all_guides]
  simp only [List.mem_append, List.mem_filterMap, Option.map_eq_some']
  constructor
  · rintro (⟨p, hp, gd, hgd, rfl⟩ | ⟨p, hp, gd, hgd, rfl⟩)
    · exact Or.inl ⟨p, gd, hp, hgd, rfl⟩
    · exact Or.inr ⟨p, gd, hp, hgd, rfl⟩
  · rintro (⟨p, gd, hp, hgd, rfl⟩ | ⟨p, gd, hp, hgd, rfl⟩)
    · exact Or.inl ⟨p, hp, gd, hgd, rfl⟩
    · exact Or.inr ⟨p, hp, gd, hgd, rfl⟩

/-- Parts of a guide record produced from a PAM hit on a strand `x` that is
fixed under uppercasing (both the uppercased input and its reverse
complement are). -/
theorem guide_parts {x : List Char} (hx : pyUpper x = x) {p : ℕ} {gd : List Char}
    (hp : p ∈ find_pam_sites x) (he : extract_guide_sequence x p = some gd) :
    gd.length = 20 ∧ (pySlice x p (p + 3)).length = 3 ∧
      (pySlice x p (p + 3)).drop 1 = ['G', 'G'] ∧ p + 3 ≤ x.length := by
  obtain ⟨h20, hple, hgd⟩ := extract_guide_sequence_eq_some.mp he
  have hp3 : p + 3 ≤ x.length := find_pam_sites_add_three_le hp
  have hGG := mem_find_pam_sites.mp hp
  rw [hx] at hGG
  refine ⟨?_, ?_, ?_, hp3⟩
  · rw [hgd, length_pySlice, length_pyUpper]
    omega
  · rw [length_pySlice]
    omega
  · have hdrop : (pySlice x p (p + 3)).drop 1 = (x.drop (p + 1)).take 2 := by
      rw [pySlice, show p + 3 - p = 3 by omega, List.drop_take, List.drop_drop]
    rw [hdrop, take_two_eq_pair]
    constructor
    · rw [List.getElem?_drop]
      simpa using hGG.1
    · rw [List.getElem?_drop, show p + 1 + 1 = p + 2 by omega]
      exact hGG.2

/-- Claim C6: every guide returned by `find_all_guides` has a 20-base guide
sequence, a 3-base PAM ending in "GG", a `full_target` that is the 23-base
concatenation of guide and PAM, and a `pam_site` within the bounds of the
original input sequence. -/
theorem claim_C6_guide_invariants (s : List Char) (g : Guide)
    (hg : g ∈ find_all_guides s) :
    g.guide_sequence.length = 20 ∧ g.pam_sequence.length = 3 ∧
      g.pam_sequence.drop 1 = ['G', 'G'] ∧
      g.full_target = g.guide_sequence ++ g.pam_sequence ∧
      g.full_target.length = 23 ∧ g.pam_site < s.length := by
  rcases mem_find_all_guides.mp hg with ⟨p, gd, hp, he, rfl⟩ | ⟨p, gd, hp, he, rfl⟩
  · obtain ⟨hg20, hpam3, hGG, hp3⟩ := guide_parts (pyUpper_idem s) hp he
    rw [length_pyUpper] at hp3
    refine ⟨hg20, hpam3, hGG, rfl, by simp [hg20, hpam3], ?_⟩
    show p < s.length
    omega
  · obtain ⟨hg20, hpam3, hGG, hp3⟩ :=
      guide_parts (pyUpper_reverse_complement_pyUpper s) hp he
    rw [length_reverse_complement, length_pyUpper] at hp3
    refine ⟨hg20, hpam3, hGG, rfl, by simp [hg20, hpam3], ?_⟩
    show s.length - p - 3 < s.length
    omega

/-- Claim C8: an input shorter than 23 bases yields the empty list of
guides (the embedding is a total function, so this is an ordinary value,
not an error). -/
theorem claim_C8_short_input_empty (s : List Char) (h : s.length < 23) :
    find_all_guides s = [] := by
  rw [find_all_guides, List.append_eq_nil]
  constructor <;>
  · rw [List.filterMap_eq_nil_iff]
    intro p hp
    have hp3 := find_pam_sites_add_three_le hp
    rw [extract_guide_sequence, if_pos]
    · rfl
    · simp only [length_pyUpper, length_reverse_complement] at hp3
      omega

/-- Witness for C8 at a concrete 7-base input. -/
theorem claim_C8_witness :
    ("ATGCAGG".toList.length < 23) ∧ find_all_guides "ATGCAGG".toList = [] :=
  ⟨by decide, claim_C8_short_input_empty _ (by decide)⟩

/-! ## `src/score_guides.py`

Python floats are modelled as exact rationals (every float literal in the
source — `0.4`, `0.3`, `1.67`, `0.5`, `30`, `100` — is a small decimal
constant).  Python's `round(x, 2)` rounds half to even; it is modelled
exactly over `ℚ`.  None of the claims under verification evaluate at a
point where binary-float representation error could flip the result. -/

/-- Round a rational to the nearest integer, ties to even
(Python's `round`). -/
def roundHalfEven (x : ℚ) : ℤ :=
  let f := Rat.floor x
  let r := x - (f : ℚ)
  if r < 1/2 then f
  else if 1/2 < r then f + 1
  else if f % 2 = 0 then f else f + 1

/-- Python `round(x, 2)`. -/
def round2 (x : ℚ) : ℚ := (roundHalfEven (x * 100) : ℚ) / 100

theorem ratFloor_eq_intFloor (x : ℚ) : Rat.floor x = ⌊x⌋ :=
  (Rat.floor_def' x).trans Rat.floor_def.symm

theorem floor_le_roundHalfEven (x : ℚ) : ⌊x⌋ ≤ roundHalfEven x := by
  rw [roundHalfEven, ratFloor_eq_intFloor]
  split_ifs <;> omega

theorem roundHalfEven_le_ceil (x : ℚ) : roundHalfEven x ≤ ⌈x⌉ := by
  rw [roundHalfEven, ratFloor_eq_intFloor]
  have hfc : ⌊x⌋ ≤ ⌈x⌉ := Int.floor_le_ceil x
  have key : 1/2 ≤ x - (⌊x⌋ : ℚ) → ⌊x⌋ + 1 ≤ ⌈x⌉ := by
    intro h
    have hx : (⌊x⌋ : ℚ) < x := by linarith
    have : ((⌊x⌋ : ℤ) : ℚ) < ((⌈x⌉ : ℤ) : ℚ) := lt_of_lt_of_le hx (Int.le_ceil x)
    exact_mod_cast Int.add_one_le_iff.mpr (by exact_mod_cast this)
  split_ifs with h1 h2 h3
  · exact hfc
  · exact key (by linarith)
  · exact hfc
  · exact key (by linarith)

theorem round2_nonneg {x : ℚ} (h : 0 ≤ x) : 0 ≤ round2 x := by
  rw [round2]
  have h0 : (0 : ℤ) ≤ ⌊x * 100⌋ := Int.floor_nonneg.mpr (by positivity)
  have := floor_le_roundHalfEven (x * 100)
  have : (0 : ℚ) ≤ (roundHalfEven (x * 100) : ℚ) := by exact_mod_cast le_trans h0 this
  positivity

theorem round2_le_100 {x : ℚ} (h : x ≤ 100) : round2 x ≤ 100 := by
  rw [round2]
  have hc : ⌈x * 100⌉ ≤ (10000 : ℤ) := Int.ceil_le.mpr (by push_cast; linarith)
  have hr := le_trans (roundHalfEven_le_ceil (x * 100)) hc
  have : ((roundHalfEven (x * 100) : ℤ) : ℚ) ≤ 10000 := by exact_mod_cast hr
  linarith

/-- `calculate_gc_content` (src/score_guides.py): percentage of G/C bases,
rounded to 2 decimals; `0.0` for empty input. -/
def calculate_gc_content (sequence : List Char) : ℚ :=
  let s := pyUpper sequence
  if s.length = 0 then 0
  else round2 ((((s.count 'G' + s.count 'C' : ℕ) : ℚ) / (s.length : ℚ)) * 100)

/-- `has_poly_t` (src/score_guides.py): Python's substring test
`'T' * threshold in sequence.upper()`. -/
def has_poly_t (sequence : List Char) (threshold : ℕ := 4) : Bool :=
  decide (List.replicate threshold 'T' <:+: pyUpper sequence)

/-- `score_gc_content` (src/score_guides.py): piecewise-linear score of a GC
percentage (`1.67` is the source's float literal, exactly `167/100`). -/
def score_gc_content (gc_content : ℚ) : ℚ :=
  if 40 ≤ gc_content ∧ gc_content ≤ 60 then 100
  else if 30 ≤ gc_content ∧ gc_content < 40 then 50 + (gc_content - 30) * 5
  else if 60 < gc_content ∧ gc_content ≤ 70 then 50 + (70 - gc_content) * 5
  else if gc_content < 30 then max 0 (gc_content * (167/100))
  else max 0 ((100 - gc_content) * (167/100))

/-- `calculate_position_score` (src/score_guides.py).  Python would raise
`ZeroDivisionError` at `sequence_length = 0`; every caller in the sources
passes a nonzero length (`score_all_guides` guards with Python truthiness),
and Lean's total division returns `0` there (scoring `100`). -/
def calculate_position_score (pam_position sequence_length : ℕ) : ℚ :=
  let relative_position : ℚ := (pam_position : ℚ) / (sequence_length : ℚ)
  if relative_position ≤ 1/2 then 100
  else 100 - (relative_position - 1/2) * 100

/-- `calculate_efficiency_score` (src/score_guides.py): GC score weighted
0.4 plus, when both position arguments are present (Python's
`pam_position is not None and sequence_length is not None`, here
`isSome`), position score weighted 0.3 plus an unconditional `+30`;
30-point poly-T penalty; floored at 0 and rounded to 2 decimals.
(`getD 0` is only ever read in the branch where the option is `some`.) -/
def calculate_efficiency_score (guide_sequence : List Char)
    (pam_position : Option ℕ := none) (sequence_length : Option ℕ := none) : ℚ :=
  let gc_content := calculate_gc_content guide_sequence
  let gc_score := score_gc_content gc_content
  let polyt_penalty : ℚ := if has_poly_t guide_sequence then 30 else 0
  let overall_score : ℚ :=
    if pam_position.isSome ∧ sequence_length.isSome then
      gc_score * (4/10) +
        calculate_position_score (pam_position.getD 0) (sequence_length.getD 0) *
          (3/10) + 30
    else gc_score
  round2 (max 0 (overall_score - polyt_penalty))

theorem score_gc_content_nonneg (g : ℚ) : 0 ≤ score_gc_content g := by
  rw [score_gc_content]
  split_ifs with h1 h2 h3 h4
  · norm_num
  · linarith [h2.1]
  · linarith [h3.2]
  · exact le_max_left 0 _
  · exact le_max_left 0 _

theorem score_gc_content_le_100 (g : ℚ) : score_gc_content g ≤ 100 := by
  rw [score_gc_content]
  split_ifs with h1 h2 h3 h4
  · norm_num
  · linarith [h2.2]
  · linarith [h3.1]
  · exact max_le (by norm_num) (by linarith)
  · refine max_le (by norm_num) ?_
    push_neg at h1 h2 h3 h4
    have g40 : 40 ≤ g := h2 h4
    have g60 : 60 < g := h1 g40
    have g70 : 70 < g := h3 g60
    linarith

theorem calculate_position_score_le_100 (p l : ℕ) :
    calculate_position_score p l ≤ 100 := by
  rw [calculate_position_score]
  split_ifs with h
  · norm_num
  · push_neg at h
    nlinarith

theorem calculate_efficiency_score_bounds (g : List Char) (pp sl : Option ℕ) :
    0 ≤ calculate_efficiency_score g pp sl ∧
      calculate_efficiency_score g pp sl ≤ 100 := by
  have hgc1 := score_gc_content_nonneg (calculate_gc_content g)
  have hgc2 := score_gc_content_le_100 (calculate_gc_content g)
  have hpen : (0 : ℚ) ≤ (if has_poly_t g then (30 : ℚ) else 0) := by
    split_ifs <;> norm_num
  rcases pp with _ | p <;> rcases sl with _ | l <;>
    simp only [calculate_efficiency_score, Option.isSome_none, Option.isSome_some,
      Option.getD_some, Bool.false_eq_true, false_and, and_false, and_self,
      if_false, if_true, Option.getD_none] <;>
    refine ⟨round2_nonneg (le_max_left 0 _),
      round2_le_100 (max_le (by norm_num) ?_)⟩
  · linarith
  · linarith
  · linarith
  · have hps := calculate_position_score_le_100 p l
    linarith

/-- Claim C2: with both position arguments present the efficiency score is
`round(max(0, gc_score*0.4 + position_score*0.3 + 30 - polyt_penalty), 2)`
(the `+30` bias applied unconditionally), otherwise
`round(max(0, gc_score - polyt_penalty), 2)`, where the penalty is 30
exactly when the guide contains 4+ consecutive `T`s; the result always lies
in `[0, 100]`. -/
theorem claim_C2_efficiency_formula (g : List Char) (pp sl : Option ℕ) :
    (∀ p l, pp = some p → sl = some l →
      calculate_efficiency_score g pp sl =
        round2 (max 0 (score_gc_content (calculate_gc_content g) * (4/10) +
          calculate_position_score p l * (3/10) + 30 -
          (if List.replicate 4 'T' <:+: pyUpper g then (30 : ℚ) else 0)))) ∧
    ((pp = none ∨ sl = none) →
      calculate_efficiency_score g pp sl =
        round2 (max 0 (score_gc_content (calculate_gc_content g) -
          (if List.replicate 4 'T' <:+: pyUpper g then (30 : ℚ) else 0)))) ∧
    0 ≤ calculate_efficiency_score g pp sl ∧
      calculate_efficiency_score g pp sl ≤ 100 := by
  refine ⟨?_, ?_, calculate_efficiency_score_bounds g pp sl⟩
  · rintro p l rfl rfl
    simp [calculate_efficiency_score, has_poly_t]
  · rintro (rfl | rfl)
    · simp [calculate_efficiency_score, has_poly_t]
    · cases pp <;> simp [calculate_efficiency_score, has_poly_t]

/-- A guide row augmented with the scoring columns that
`score_all_guides` adds. -/
structure ScoredRow extends Guide where
  gc_content : ℚ
  has_poly_t : Bool
  efficiency_score : ℚ
deriving DecidableEq, Repr

/-- A scored row with the `rank` column added after sorting. -/
structure RankedRow extends ScoredRow where
  rank : ℕ
deriving DecidableEq, Repr

/-- Stable insertion (ascending by `efficiency_score`): a new row goes
after every already-placed row of less-or-equal score. -/
def insert_by_score (r : ScoredRow) : List ScoredRow → List ScoredRow
  | [] => [r]
  | x :: xs =>
      if x.efficiency_score ≤ r.efficiency_score then x :: insert_by_score r xs
      else r :: x :: xs

/-- Stable ascending sort by `efficiency_score` (insertion sort, processing
rows in order). -/
def sort_asc_by_score (l : List ScoredRow) : List ScoredRow :=
  l.foldl (fun acc r => insert_by_score r acc) []

/-- pandas `DataFrame.sort_values('efficiency_score', ascending=False)`.
For `ascending=False`, pandas' `nargsort` reverses the values and the row
index *before* the ascending argsort and reverses the resulting indexer
*after* it (a double reversal, pandas GH #6399), so with a stable argsort
kernel tied rows keep their input order.  numpy's introsort kernel is a
plain stable insertion sort on the array sizes arising here (below 16
elements), and pandas' own regression tests pin exactly this tie behavior
for descending sorts.  Modelled as: reverse, stable ascending insertion
sort, reverse — i.e. the stable descending sort. -/
def pandas_sort_desc (l : List ScoredRow) : List ScoredRow :=
  (sort_asc_by_score l.reverse).reverse

/-- `scored_df['rank'] = range(1, len(scored_df) + 1)`: attach ranks
positionally, starting at `k`. -/
def rank_rows : ℕ → List ScoredRow → List RankedRow
  | _, [] => []
  | k, x :: xs => ⟨x, k⟩ :: rank_rows (k + 1) xs

/-- The column-adding block of `score_all_guides` (src/score_guides.py):
add `gc_content`, `has_poly_t` and `efficiency_score` to each row, in
discovery order (position-aware exactly when `sequence_length` is truthy —
`none` and `some 0` are both falsy in Python). -/
def score_rows (guides : List Guide) (sequence_length : Option ℕ := none) :
    List ScoredRow :=
  guides.map fun g =>
    let eff :=
      if sequence_length.getD 0 ≠ 0 then
        calculate_efficiency_score g.guide_sequence (some g.pam_site)
          (some (sequence_length.getD 0))
      else
        calculate_efficiency_score g.guide_sequence none none
    ({ toGuide := g
       gc_content := calculate_gc_content g.guide_sequence
       has_poly_t := has_poly_t g.guide_sequence
       efficiency_score := eff } : ScoredRow)

/-- `score_all_guides` (src/score_guides.py): add the scoring columns,
sort descending by score, then attach 1-based ranks. -/
def score_all_guides (guides : List Guide) (sequence_length : Option ℕ := none) :
    List RankedRow :=
  rank_rows 1 (pandas_sort_desc (score_rows guides sequence_length))

theorem mem_insert_by_score {r y : ScoredRow} {l : List ScoredRow}
    (h : y ∈ insert_by_score r l) : y = r ∨ y ∈ l := by
  induction l with
  | nil => simpa [insert_by_score] using h
  | cons x xs ih =>
      rw [insert_by_score] at h
      split_ifs at h with hle
      · rcases List.mem_cons.mp h with h | h
        · exact Or.inr (h ▸ List.mem_cons_self _ _)
        · rcases ih h with rfl | h
          · exact Or.inl rfl
          · exact Or.inr (List.mem_cons_of_mem _ h)
      · simpa using h

theorem pairwise_insert_by_score {r : ScoredRow} {l : List ScoredRow}
    (h : List.Pairwise
      (fun a b : ScoredRow => a.efficiency_score ≤ b.efficiency_score) l) :
    List.Pairwise (fun a b : ScoredRow => a.efficiency_score ≤ b.efficiency_score)
      (insert_by_score r l) := by
  induction l with
  | nil => simp [insert_by_score]
  | cons x xs ih =>
      rw [List.pairwise_cons] at h
      rw [insert_by_score]
      split_ifs with hle
      · rw [List.pairwise_cons]
        refine ⟨fun y hy => ?_, ih h.2⟩
        rcases mem_insert_by_score hy with rfl | hy
        · exact hle
        · exact h.1 y hy
      · rw [List.pairwise_cons]
        refine ⟨fun y hy => ?_, List.Pairwise.cons h.1 h.2⟩
        rcases List.mem_cons.mp hy with rfl | hy
        · exact le_of_lt (lt_of_not_le hle)
        · exact le_trans (le_of_lt (lt_of_not_le hle)) (h.1 y hy)

theorem length_insert_by_score (r : ScoredRow) (l : List ScoredRow) :
    (insert_by_score r l).length = l.length + 1 := by
  induction l with
  | nil => rfl
  | cons x xs ih =>
      rw [insert_by_score]
      split_ifs <;> simp [ih]

theorem sort_asc_aux (l : List ScoredRow) :
    ∀ acc : List ScoredRow,
      List.Pairwise
        (fun a b : ScoredRow => a.efficiency_score ≤ b.efficiency_score) acc →
      List.Pairwise
          (fun a b : ScoredRow => a.efficiency_score ≤ b.efficiency_score)
          (l.foldl (fun acc r => insert_by_score r acc) acc) ∧
        (l.foldl (fun acc r => insert_by_score r acc) acc).length =
          acc.length + l.length := by
  induction l with
  | nil => exact fun acc h => ⟨h, rfl⟩
  | cons x xs ih =>
      intro acc h
      obtain ⟨h1, h2⟩ := ih (insert_by_score x acc) (pairwise_insert_by_score h)
      refine ⟨h1, ?_⟩
      rw [List.foldl_cons, h2, length_insert_by_score, List.length_cons]
      omega

theorem map_toScoredRow_rank_rows (k : ℕ) (l : List ScoredRow) :
    (rank_rows k l).map RankedRow.toScoredRow = l := by
  induction l generalizing k with
  | nil => rfl
  | cons x xs ih => simp [rank_rows, ih]

theorem map_rank_rank_rows (k : ℕ) (l : List ScoredRow) :
    (rank_rows k l).map RankedRow.rank = List.range' k l.length := by
  induction l generalizing k with
  | nil => rfl
  | cons x xs ih => simp [rank_rows, ih, List.range'_succ]

theorem rank_rows_sort_spec (l : List ScoredRow) :
    List.Pairwise
        (fun a b : RankedRow => b.efficiency_score ≤ a.efficiency_score)
        (rank_rows 1 (pandas_sort_desc l)) ∧
      (rank_rows 1 (pandas_sort_desc l)).map RankedRow.rank =
        List.range' 1 l.length := by
  have hasc := sort_asc_aux l.reverse [] List.Pairwise.nil
  have hdesc :
      List.Pairwise
        (fun a b : ScoredRow => b.efficiency_score ≤ a.efficiency_score)
        (pandas_sort_desc l) :=
    List.pairwise_reverse.mpr hasc.1
  constructor
  · have hmap := map_toScoredRow_rank_rows 1 (pandas_sort_desc l)
    have := List.pairwise_map
      (f := RankedRow.toScoredRow)
      (R := fun a b : ScoredRow => b.efficiency_score ≤ a.efficiency_score)
      (l := rank_rows 1 (pandas_sort_desc l))
    rw [hmap] at this
    exact this.mp hdesc
  · rw [map_rank_rank_rows]
    congr 1
    rw [pandas_sort_desc, List.length_reverse, sort_asc_by_score, hasc.2]
    simp

theorem filter_eq_nil_of_forall_gt {q : ℚ} {l : List ScoredRow}
    (h : ∀ y ∈ l, q < y.efficiency_score) :
    l.filter (fun r => decide (r.efficiency_score = q)) = [] := by
  rw [List.filter_eq_nil_iff]
  intro a ha
  simp only [decide_eq_true_eq]
  exact ne_of_gt (h a ha)

/-- Inserting into an ascending-by-score list appends the new row after
every already-present row of its score class and touches no other class:
the characteristic property of a stable insertion. -/
theorem filter_insert_by_score {q : ℚ} {r : ScoredRow} {acc : List ScoredRow}
    (hacc : List.Pairwise
      (fun a b : ScoredRow => a.efficiency_score ≤ b.efficiency_score) acc) :
    (insert_by_score r acc).filter (fun x => decide (x.efficiency_score = q)) =
      acc.filter (fun x => decide (x.efficiency_score = q)) ++
        (if r.efficiency_score = q then [r] else []) := by
  induction acc with
  | nil =>
      rw [insert_by_score]
      by_cases hr : r.efficiency_score = q <;> simp [hr]
  | cons x xs ih =>
      rw [List.pairwise_cons] at hacc
      rw [insert_by_score]
      by_cases hle : x.efficiency_score ≤ r.efficiency_score
      · rw [if_pos hle]
        by_cases hx : x.efficiency_score = q <;>
          simp [List.filter_cons, hx, ih hacc.2]
      · rw [if_neg hle]
        push_neg at hle
        by_cases hr : r.efficiency_score = q
        · have hnil : (x :: xs).filter
              (fun y => decide (y.efficiency_score = q)) = [] := by
            apply filter_eq_nil_of_forall_gt
            intro y hy
            rcases List.mem_cons.mp hy with rfl | hy
            · exact hr ▸ hle
            · exact lt_of_lt_of_le (hr ▸ hle) (hacc.1 y hy)
          simp [List.filter_cons, hr, hnil]
        · simp [List.filter_cons, hr]

theorem filter_sort_asc_aux (q : ℚ) :
    ∀ (m acc : List ScoredRow),
      List.Pairwise
        (fun a b : ScoredRow => a.efficiency_score ≤ b.efficiency_score) acc →
      (m.foldl (fun acc r => insert_by_score r acc) acc).filter
          (fun x => decide (x.efficiency_score = q)) =
        acc.filter (fun x => decide (x.efficiency_score = q)) ++
          m.filter (fun x => decide (x.efficiency_score = q)) := by
  intro m
  induction m with
  | nil =>
      intro acc h
      simp
  | cons x xs ih =>
      intro acc hacc
      rw [List.foldl_cons, ih _ (pairwise_insert_by_score hacc),
        filter_insert_by_score hacc]
      by_cases hx : x.efficiency_score = q <;>
        simp [List.filter_cons, hx, List.append_assoc]

/-- pandas' descending sort (double reversal around a stable ascending
sort) preserves each score class in input order — it is the stable
descending sort. -/
theorem filter_pandas_sort_desc (q : ℚ) (l : List ScoredRow) :
    (pandas_sort_desc l).filter (fun x => decide (x.efficiency_score = q)) =
      l.filter (fun x => decide (x.efficiency_score = q)) := by
  rw [pandas_sort_desc, List.filter_reverse, sort_asc_by_score,
    filter_sort_asc_aux q l.reverse [] List.Pairwise.nil, List.filter_reverse]
  simp

/-- Claim C1: `score_all_guides` returns the table sorted in descending
order of `efficiency_score`; ties between equal scores keep their original
relative (discovery) order — stated as: for every score value, the rows of
that score appear in the output exactly as in the discovery-order scored
table, as under a stable sort; and `rank` is assigned after sorting as the
contiguous 1-based sequence `1..N`. -/
theorem claim_C1_sorted_stable_ranked (guides : List Guide) (sl : Option ℕ) :
    List.Pairwise
        (fun a b : RankedRow => b.efficiency_score ≤ a.efficiency_score)
        (score_all_guides guides sl) ∧
      (∀ q : ℚ,
        ((score_all_guides guides sl).map RankedRow.toScoredRow).filter
            (fun r => decide (r.efficiency_score = q)) =
          (score_rows guides sl).filter
            (fun r => decide (r.efficiency_score = q))) ∧
      (score_all_guides guides sl).map RankedRow.rank =
        List.range' 1 guides.length := by
  refine ⟨(rank_rows_sort_spec _).1, ?_, ?_⟩
  · intro q
    rw [score_all_guides, map_toScoredRow_rank_rows, filter_pandas_sort_desc]
  · rw [score_all_guides, (rank_rows_sort_spec _).2, score_rows,
      List.length_map]

theorem roundHalfEven_intCast (n : ℤ) : roundHalfEven (n : ℚ) = n := by
  rw [roundHalfEven, ratFloor_eq_intFloor, Int.floor_intCast]
  norm_num

theorem round2_eq_of_mul_eq {x : ℚ} {n : ℤ} (h : x * 100 = (n : ℚ)) :
    round2 x = (n : ℚ) / 100 := by
  rw [round2, h, roundHalfEven_intCast]

/-- The running example guide sequence of the sources: 50% GC, no poly-T. -/
def exSeq : List Char := "ATGCATGCATGCATGCATGC".toList

theorem calculate_gc_content_exSeq : calculate_gc_content exSeq = 50 := by
  have hG : (pyUpper exSeq).count 'G' = 5 := by decide
  have hC : (pyUpper exSeq).count 'C' = 5 := by decide
  have hlen : (pyUpper exSeq).length = 20 := by decide
  rw [calculate_gc_content]
  simp only [hG, hC, hlen]
  norm_num
  rw [round2_eq_of_mul_eq (n := 5000) (by norm_num)]
  norm_num

theorem has_poly_t_exSeq : has_poly_t exSeq = false := by decide

theorem efficiency_exSeq_no_position :
    calculate_efficiency_score exSeq none none = 100 := by
  rw [calculate_efficiency_score]
  simp only [calculate_gc_content_exSeq, has_poly_t_exSeq, Option.isSome_none,
    Bool.false_eq_true, false_and, if_false, Bool.false_eq_true]
  rw [show score_gc_content 50 = 100 by rw [score_gc_content]; norm_num]
  norm_num
  rw [round2_eq_of_mul_eq (n := 10000) (by norm_num)]
  norm_num

/-- Two distinguishable guides (different `pam_site`) with the same guide
sequence, hence tied efficiency scores. -/
def exGuideA : Guide :=
  ⟨exSeq, 20, "AGG".toList, '+', exSeq ++ "AGG".toList⟩

/-- See `exGuideA`; discovered later (greater `pam_site`). -/
def exGuideB : Guide :=
  ⟨exSeq, 24, "TGG".toList, '+', exSeq ++ "TGG".toList⟩

/-- Witness for C1 on the two-row tied table `[exGuideA, exGuideB]`
(discovery order: `pam_site` 20 then 24, both rows scoring 100): the
stability and rank parts of the claim applied there, together with the
concrete output — tied rows come back in discovery order `[20, 24]`. -/
theorem claim_C1_witness :
    (((score_all_guides [exGuideA, exGuideB] none).map
          RankedRow.toScoredRow).filter
        (fun r => decide (r.efficiency_score = (100 : ℚ))) =
      (score_rows [exGuideA, exGuideB] none).filter
        (fun r => decide (r.efficiency_score = (100 : ℚ)))) ∧
    (score_all_guides [exGuideA, exGuideB] none).map RankedRow.rank =
      List.range' 1 2 ∧
    ((score_all_guides [exGuideA, exGuideB] none).map fun r => r.pam_site) =
      [20, 24] ∧
    ((score_all_guides [exGuideA, exGuideB] none).map
        fun r => r.efficiency_score) = [100, 100] := by
  refine ⟨(claim_C1_sorted_stable_ranked [exGuideA, exGuideB] none).2.1 100,
    (claim_C1_sorted_stable_ranked [exGuideA, exGuideB] none).2.2, ?_, ?_⟩ <;>
  · have heff := efficiency_exSeq_no_position
    simp only [score_all_guides, score_rows, exGuideA, exGuideB,
      List.map_cons, List.map_nil, Option.getD_none, ne_eq,
      not_true_eq_false, if_false, heff, pandas_sort_desc,
      sort_asc_by_score, List.reverse_cons, List.reverse_nil,
      List.nil_append, List.cons_append, List.foldl_cons, List.foldl_nil,
      insert_by_score, le_refl, if_true, rank_rows]

/-- Claim C4: `find_pam_sites` reports offset `i` exactly when the two
bases at `i+1`, `i+2` of the uppercased sequence are `G`, `G` (the base at
`i` itself unconstrained); in particular no offset outside this rule is
ever reported. -/
theorem claim_C4_pam_rule (s : List Char) (i : ℕ) :
    i ∈ find_pam_sites s ↔
      ((pyUpper s)[i + 1]? = some 'G' ∧ (pyUpper s)[i + 2]? = some 'G') :=
  mem_find_pam_sites

/-- Witness for C4 on `"AAGG"`: offset 1 is a PAM, offset 0 is not. -/
theorem claim_C4_witness :
    1 ∈ find_pam_sites "AAGG".toList ∧ 0 ∉ find_pam_sites "AAGG".toList :=
  ⟨(claim_C4_pam_rule "AAGG".toList 1).mpr ⟨by decide, by decide⟩,
   fun h => absurd ((claim_C4_pam_rule "AAGG".toList 0).mp h).1 (by decide)⟩

/-- Witness for C2 at the example guide with `pam_position = 21`,
`sequence_length = 40`. -/
theorem claim_C2_witness :
    calculate_efficiency_score exSeq (some 21) (some 40) =
      round2 (max 0 (score_gc_content (calculate_gc_content exSeq) * (4/10) +
        calculate_position_score 21 40 * (3/10) + 30 -
        (if List.replicate 4 'T' <:+: pyUpper exSeq then (30 : ℚ) else 0))) :=
  (claim_C2_efficiency_formula exSeq (some 21) (some 40)).1 21 40 rfl rfl

/-- The test sequence of `find_guides.py`'s `__main__` block. -/
def testSeq : List Char := "ATGCATGCATGCATGCATGCAGGCTAGCTAGCTAGCTAGC".toList

/-- Witness for C6: the guide found in `testSeq` satisfies the invariants. -/
theorem claim_C6_witness :
    exGuideA ∈ find_all_guides testSeq ∧
      (exGuideA.guide_sequence.length = 20 ∧
        exGuideA.pam_sequence.length = 3 ∧
        exGuideA.pam_sequence.drop 1 = ['G', 'G'] ∧
        exGuideA.full_target = exGuideA.guide_sequence ++ exGuideA.pam_sequence ∧
        exGuideA.full_target.length = 23 ∧ exGuideA.pam_site < testSeq.length) :=
  ⟨by decide, claim_C6_guide_invariants testSeq exGuideA (by decide)⟩

/-! ## `src/offtarget_prediction.py` -/

/-- `count_mismatches` (src/offtarget_prediction.py): positions where the
bases differ; `float('inf')` for different lengths is modelled as
`⊤ : ℕ∞`, which like infinity exceeds every finite budget. -/
def count_mismatches (seq1 seq2 : List Char) : ℕ∞ :=
  if seq1.length ≠ seq2.length then ⊤
  else (((seq1.zip seq2).countP fun p => p.1 != p.2 : ℕ) : ℕ∞)

/-- One off-target hit record of `find_similar_sequences`. -/
structure OffTarget where
  position : ℕ
  sequence : List Char
  mismatches : ℕ∞
  strand : Char
deriving DecidableEq

/-- `find_similar_sequences` (src/offtarget_prediction.py): slide a window
of the guide's length over the uppercased target (offsets
`range(len(target) - guide_length + 1)`) and over its reverse complement;
record a hit iff `mismatches ≤ max_mismatches and mismatches > 0`.
Reverse-strand offsets `i` map to forward coordinate
`len(target) - i - guide_length` (never truncating over `ℕ`, since every
scanned offset satisfies `i + guide_length ≤ len(target)`). -/
def find_similar_sequences (guide_sequence target_sequence : List Char)
    (max_mismatches : ℕ := 4) : List OffTarget :=
  let gu := pyUpper guide_sequence
  let tu := pyUpper target_sequence
  let guide_length := gu.length
  let fwd := (pyRange ((tu.length : ℤ) - guide_length + 1)).filterMap fun i =>
    let substring := pySlice tu i (i + guide_length)
    let mismatches := count_mismatches gu substring
    if mismatches ≤ (max_mismatches : ℕ∞) ∧ 0 < mismatches then
      some ⟨i, substring, mismatches, '+'⟩
    else none
  let rev_target := reverse_complement tu
  let bwd := (pyRange ((rev_target.length : ℤ) - guide_length + 1)).filterMap
    fun i =>
      let substring := pySlice rev_target i (i + guide_length)
      let mismatches := count_mismatches gu substring
      if mismatches ≤ (max_mismatches : ℕ∞) ∧ 0 < mismatches then
        some ⟨tu.length - i - guide_length, substring, mismatches, '-'⟩
      else none
  fwd ++ bwd

/-- The `mismatch_weights.get(mismatches, 0)` table of
`score_offtarget_risk`. -/
def mismatch_weight (m : ℕ∞) : ℚ :=
  if m = 1 then 50 else if m = 2 then 25 else if m = 3 then 10
  else if m = 4 then 5 else 0

/-- `score_offtarget_risk` (src/offtarget_prediction.py): 0 for an empty
list, otherwise the running sum of per-site weights. -/
def score_offtarget_risk (off_targets : List OffTarget) : ℚ :=
  if off_targets = [] then 0
  else off_targets.foldl (fun acc ot => acc + mismatch_weight ot.mismatches) 0

/-- The `elif` chain of `assess_offtarget_risk` bucketing `risk_score`. -/
def risk_level_of (risk_score : ℚ) : String :=
  if risk_score = 0 then "None"
  else if risk_score < 25 then "Low"
  else if risk_score < 100 then "Medium"
  else if risk_score < 200 then "High"
  else "Very High"

/-- The dict returned by `assess_offtarget_risk`. -/
structure Assessment where
  off_targets : List OffTarget
  risk_score : ℚ
  risk_level : String
  num_offtargets : ℕ
deriving DecidableEq

/-- `assess_offtarget_risk` (src/offtarget_prediction.py). -/
def assess_offtarget_risk (guide_sequence target_sequence : List Char)
    (max_mismatches : ℕ := 4) : Assessment :=
  let off_targets :=
    find_similar_sequences guide_sequence target_sequence max_mismatches
  let risk_score := score_offtarget_risk off_targets
  ⟨off_targets, risk_score, risk_level_of risk_score, off_targets.length⟩

/-- The `risk_order` dict of `filter_by_offtarget_risk`. -/
def risk_order : List (String × ℕ) :=
  [("None", 0), ("Low", 1), ("Medium", 2), ("High", 3), ("Very High", 4)]

/-- A ranked guide row with the columns `add_offtarget_scores` attaches. -/
structure AssessedRow extends RankedRow where
  num_offtargets : ℕ
  offtarget_risk_score : ℚ
  offtarget_risk_level : String
deriving DecidableEq, Repr

/-- `filter_by_offtarget_risk` (src/offtarget_prediction.py): the ceiling
ordinal is `risk_order.get(max_risk_level, 2)`; a row whose level is not a
`risk_order` key maps to NaN under `.map(risk_order)`, and `NaN <= x` is
false in pandas, so such a row is dropped. -/
def filter_by_offtarget_risk (guides_df : List AssessedRow)
    (max_risk_level : String := "Medium") : List AssessedRow :=
  let max_risk_value := (risk_order.lookup max_risk_level).getD 2
  guides_df.filter fun row =>
    match risk_order.lookup row.offtarget_risk_level with
    | some v => decide (v ≤ max_risk_value)
    | none => false

theorem zip_countP_eq_range_countP :
    ∀ s1 s2 : List Char, s1.length = s2.length →
      ((s1.zip s2).countP fun p => p.1 != p.2) =
        (List.range s1.length).countP fun i => decide (s1[i]? ≠ s2[i]?) := by
  intro s1
  induction s1 with
  | nil =>
      intro s2 h
      rfl
  | cons a t1 ih =>
      intro s2 h
      cases s2 with
      | nil => simp at h
      | cons b t2 =>
          rw [List.zip_cons_cons, List.countP_cons, List.length_cons,
            List.range_succ_eq_map, List.countP_cons, List.countP_map]
          have h' : t1.length = t2.length := by simpa using h
          rw [ih t2 h']
          have hhead : ((a, b).1 != (a, b).2) =
              decide ((a :: t1)[0]? ≠ (b :: t2)[0]?) := by
            by_cases hab : a = b <;> simp [hab]
          have htail :
              ((List.range t1.length).countP
                fun i => decide (t1[i]? ≠ t2[i]?)) =
              (List.range t1.length).countP
                ((fun i => decide ((a :: t1)[i]? ≠ (b :: t2)[i]?)) ∘ Nat.succ) := by
            refine List.countP_congr fun i _ => ?_
            simp
          rw [hhead, htail]

/-- Claim C9: `count_mismatches` counts the differing positions when the
lengths agree, and returns the infinite value `⊤` otherwise — which
exceeds every finite mismatch budget, so an incomparable pair is never
eligible as a hit (and the function is total: no runtime fault). -/
theorem claim_C9_count_mismatches (s1 s2 : List Char) :
    (s1.length = s2.length →
      count_mismatches s1 s2 =
        (((List.range s1.length).countP
          fun i => decide (s1[i]? ≠ s2[i]?) : ℕ) : ℕ∞)) ∧
    (s1.length ≠ s2.length →
      count_mismatches s1 s2 = ⊤ ∧
        ∀ budget : ℕ, ¬ count_mismatches s1 s2 ≤ (budget : ℕ∞)) := by
  constructor
  · intro h
    rw [count_mismatches, if_neg (not_not_intro h)]
    exact_mod_cast zip_countP_eq_range_countP s1 s2 h
  · intro h
    have ht : count_mismatches s1 s2 = ⊤ := by rw [count_mismatches, if_pos h]
    refine ⟨ht, fun budget hb => ?_⟩
    rw [ht] at hb
    exact (WithTop.natCast_ne_top budget) (top_le_iff.mp hb)

/-- Witness for C9: `("ATGC","ATCC")` has 1 mismatch; `("ATGC","AT")` is
incomparable and fails every budget. -/
theorem claim_C9_witness :
    count_mismatches "ATGC".toList "ATCC".toList =
      (((List.range "ATGC".toList.length).countP
        fun i => decide ("ATGC".toList[i]? ≠ "ATCC".toList[i]?) : ℕ) : ℕ∞) ∧
    count_mismatches "ATGC".toList "ATCC".toList = 1 ∧
    count_mismatches "ATGC".toList "AT".toList = ⊤ ∧
    ¬ count_mismatches "ATGC".toList "AT".toList ≤ (4 : ℕ∞) :=
  ⟨(claim_C9_count_mismatches _ _).1 rfl, by decide,
   ((claim_C9_count_mismatches _ _).2 (by decide)).1,
   ((claim_C9_count_mismatches _ _).2 (by decide)).2 4⟩

/-- The off-target test sequence of `offtarget_prediction.py`'s
`__main__` block: the guide's own site, a 100-`N` spacer, and a
1-mismatch variant. -/
def offtargetTarget : List Char :=
  exSeq ++ List.replicate 100 'N' ++ "ATGCATGCATGCATGCATCC".toList

theorem mem_find_similar_fwd {g t : List Char} {mm i : ℕ} {sub : List Char}
    {m : ℕ∞} :
    (⟨i, sub, m, '+'⟩ : OffTarget) ∈ find_similar_sequences g t mm ↔
      (i + g.length ≤ t.length ∧
        sub = pySlice (pyUpper t) i (i + g.length) ∧
        m = count_mismatches (pyUpper g) sub ∧
        m ≤ (mm : ℕ∞) ∧ 0 < m) := by
  rw [find_similar_sequences]
  simp only [List.mem_append, List.mem_filterMap, pyRange, List.mem_range,
    length_pyUpper, length_reverse_complement]
  constructor
  · rintro (⟨j, hj, hsome⟩ | ⟨j, hj, hsome⟩)
    · split_ifs at hsome with hcond
      have hinj := Option.some.inj hsome
      rw [OffTarget.mk.injEq] at hinj
      obtain ⟨rfl, rfl, rfl, -⟩ := hinj
      exact ⟨by omega, rfl, rfl, hcond.1, hcond.2⟩
    · split_ifs at hsome with hcond
      have hinj := Option.some.inj hsome
      rw [OffTarget.mk.injEq] at hinj
      exact absurd hinj.2.2.2 (by decide)
  · rintro ⟨hle, rfl, rfl, hmm', hpos⟩
    exact Or.inl ⟨i, by omega, by rw [if_pos ⟨hmm', hpos⟩]⟩

theorem mem_find_similar_bwd {g t : List Char} {mm pos : ℕ} {sub : List Char}
    {m : ℕ∞} :
    (⟨pos, sub, m, '-'⟩ : OffTarget) ∈ find_similar_sequences g t mm ↔
      ∃ i, i + g.length ≤ t.length ∧ pos = t.length - i - g.length ∧
        sub = pySlice (reverse_complement (pyUpper t)) i (i + g.length) ∧
        m = count_mismatches (pyUpper g) sub ∧
        m ≤ (mm : ℕ∞) ∧ 0 < m := by
  rw [find_similar_sequences]
  simp only [List.mem_append, List.mem_filterMap, pyRange, List.mem_range,
    length_pyUpper, length_reverse_complement]
  constructor
  · rintro (⟨j, hj, hsome⟩ | ⟨j, hj, hsome⟩)
    · split_ifs at hsome with hcond
      have hinj := Option.some.inj hsome
      rw [OffTarget.mk.injEq] at hinj
      exact absurd hinj.2.2.2 (by decide)
    · split_ifs at hsome with hcond
      have hinj := Option.some.inj hsome
      rw [OffTarget.mk.injEq] at hinj
      obtain ⟨hpos', rfl, rfl, -⟩ := hinj
      exact ⟨j, by omega, hpos'.symm, rfl, rfl, hcond.1, hcond.2⟩
  · rintro ⟨i, hle, rfl, rfl, rfl, hmm', hpos⟩
    exact Or.inr ⟨i, by omega, by rw [if_pos ⟨hmm', hpos⟩]⟩

set_option maxRecDepth 1000000 in
/-- Claim C3 (amended): `find_similar_sequences` records a forward hit at
offset `i` exactly when the guide-length window at `i` has mismatch count
`m` with `0 < m ≤ max_mismatches`, scanning every offset on the forward
strand and on the reverse complement, with reverse offsets `i` mapped to
`len(target) - i - guide_length`; but on the documented concrete instance
(guide vs. itself + 100 `N`s + a 1-mismatch variant, budget 2) the scan
finds three off-targets — the 1-mismatch forward hit plus two 2-mismatch
reverse-strand hits whose windows overlap the `N` spacer — not exactly
one. -/
theorem claim_C3_similarity_scan (g t : List Char) (mm : ℕ) :
    (∀ (i : ℕ) (sub : List Char) (m : ℕ∞),
      (⟨i, sub, m, '+'⟩ : OffTarget) ∈ find_similar_sequences g t mm ↔
        (i + g.length ≤ t.length ∧
          sub = pySlice (pyUpper t) i (i + g.length) ∧
          m = count_mismatches (pyUpper g) sub ∧
          m ≤ (mm : ℕ∞) ∧ 0 < m)) ∧
    (∀ (pos : ℕ) (sub : List Char) (m : ℕ∞),
      (⟨pos, sub, m, '-'⟩ : OffTarget) ∈ find_similar_sequences g t mm ↔
        ∃ i, i + g.length ≤ t.length ∧ pos = t.length - i - g.length ∧
          sub = pySlice (reverse_complement (pyUpper t)) i (i + g.length) ∧
          m = count_mismatches (pyUpper g) sub ∧
          m ≤ (mm : ℕ∞) ∧ 0 < m) ∧
    find_similar_sequences exSeq offtargetTarget 2 =
      [⟨120, "ATGCATGCATGCATGCATCC".toList, 1, '+'⟩,
       ⟨118, "ATGCATGCATGCATGCATNN".toList, 2, '-'⟩,
       ⟨2, "NNGCATGCATGCATGCATGC".toList, 2, '-'⟩] :=
  ⟨fun _ _ _ => mem_find_similar_fwd, fun _ _ _ => mem_find_similar_bwd,
   by decide⟩

set_option maxRecDepth 1000000 in
/-- Counterexample to claim C3 as stated: the documented instance does not
return exactly one off-target — it returns three. -/
theorem claim_C3_counterexample :
    find_similar_sequences exSeq offtargetTarget 2 ≠
        [⟨120, "ATGCATGCATGCATGCATCC".toList, 1, '+'⟩] ∧
      (find_similar_sequences exSeq offtargetTarget 2).length = 3 := by
  decide

set_option maxRecDepth 1000000 in
/-- Witness for C3: the forward characterization applied at offset 120 of
the concrete instance. -/
theorem claim_C3_witness :
    (⟨120, "ATGCATGCATGCATGCATCC".toList, 1, '+'⟩ : OffTarget) ∈
      find_similar_sequences exSeq offtargetTarget 2 :=
  ((claim_C3_similarity_scan exSeq offtargetTarget 2).1 120
      "ATGCATGCATGCATGCATCC".toList 1).mpr
    ⟨by decide, by decide, by decide, by decide, by decide⟩

theorem foldl_add_weight (l : List OffTarget) (a : ℚ) :
    l.foldl (fun acc ot => acc + mismatch_weight ot.mismatches) a =
      a + (l.map fun ot => mismatch_weight ot.mismatches).sum := by
  induction l generalizing a with
  | nil => simp
  | cons x xs ih => simp [ih, add_assoc]

theorem score_offtarget_risk_eq_sum (l : List OffTarget) :
    score_offtarget_risk l =
      (l.map fun ot => mismatch_weight ot.mismatches).sum := by
  rw [score_offtarget_risk]
  split_ifs with h
  · simp [h]
  · rw [foldl_add_weight]
    simp

theorem risk_ordinal_eq {r : ℚ} (h0 : 0 ≤ r) :
    (risk_order.lookup (risk_level_of r)).getD 0 =
      if r ≤ 0 then 0 else if r < 25 then 1 else if r < 100 then 2
      else if r < 200 then 3 else 4 := by
  rcases lt_or_eq_of_le h0 with hpos | heq
  · rw [risk_level_of]
    split_ifs <;> first | decide | linarith
  · rw [← heq]
    norm_num [risk_level_of]
    decide

theorem risk_ordinal_monotone {r r' : ℚ} (h0 : 0 ≤ r) (h' : r ≤ r') :
    (risk_order.lookup (risk_level_of r)).getD 0 ≤
      (risk_order.lookup (risk_level_of r')).getD 0 := by
  rw [risk_ordinal_eq h0, risk_ordinal_eq (le_trans h0 h')]
  split_ifs <;> linarith

/-- Claim C7: `assess_offtarget_risk` computes `risk_score` as the sum of
per-site weights (1→50, 2→25, 3→10, 4→5, anything else→0) and
`risk_level` by the bucketing 0→None, (0,25)→Low, [25,100)→Medium,
[100,200)→High, ≥200→Very High; the bucketing is monotone in the risk
ordinal. -/
theorem claim_C7_risk_assessment (g t : List Char) (mm : ℕ) :
    ((assess_offtarget_risk g t mm).risk_score =
      (((assess_offtarget_risk g t mm).off_targets).map
        fun ot => mismatch_weight ot.mismatches).sum) ∧
    ((assess_offtarget_risk g t mm).risk_level =
      risk_level_of (assess_offtarget_risk g t mm).risk_score) ∧
    (mismatch_weight 1 = 50 ∧ mismatch_weight 2 = 25 ∧
      mismatch_weight 3 = 10 ∧ mismatch_weight 4 = 5 ∧
      ∀ m : ℕ∞, m ≠ 1 → m ≠ 2 → m ≠ 3 → m ≠ 4 → mismatch_weight m = 0) ∧
    (∀ r : ℚ, 0 ≤ r →
      (r = 0 → risk_level_of r = "None") ∧
      (0 < r → r < 25 → risk_level_of r = "Low") ∧
      (25 ≤ r → r < 100 → risk_level_of r = "Medium") ∧
      (100 ≤ r → r < 200 → risk_level_of r = "High") ∧
      (200 ≤ r → risk_level_of r = "Very High")) ∧
    (∀ r r' : ℚ, 0 ≤ r → r ≤ r' →
      (risk_order.lookup (risk_level_of r)).getD 0 ≤
        (risk_order.lookup (risk_level_of r')).getD 0) := by
  refine ⟨?_, ?_, ⟨rfl, rfl, rfl, rfl, ?_⟩, ?_, fun r r' h0 h' =>
    risk_ordinal_monotone h0 h'⟩
  · simp only [assess_offtarget_risk]
    exact score_offtarget_risk_eq_sum _
  · simp only [assess_offtarget_risk]
  · intro m h1 h2 h3 h4
    simp [mismatch_weight, h1, h2, h3, h4]
  · intro r h0
    refine ⟨?_, ?_, ?_, ?_, ?_⟩
    · intro hz
      rw [risk_level_of, if_pos hz]
    · intro hp h25
      rw [risk_level_of, if_neg (ne_of_gt hp), if_pos h25]
    · intro h25 h100
      rw [risk_level_of, if_neg (by linarith), if_neg (by linarith),
        if_pos h100]
    · intro h100 h200
      rw [risk_level_of, if_neg (by linarith), if_neg (by linarith),
        if_neg (by linarith), if_pos h200]
    · intro h200
      rw [risk_level_of, if_neg (by linarith), if_neg (by linarith),
        if_neg (by linarith), if_neg (by linarith)]

/-- Witness for C7: the ordinal of the bucket of risk score 30 is at most
that of 150, and the bucket names at 0, 10, 30, 150, 250. -/
theorem claim_C7_witness :
    ((risk_order.lookup (risk_level_of 30)).getD 0 ≤
      (risk_order.lookup (risk_level_of 150)).getD 0) ∧
    risk_level_of 0 = "None" ∧ risk_level_of 10 = "Low" ∧
    risk_level_of 30 = "Medium" ∧ risk_level_of 150 = "High" ∧
    risk_level_of 250 = "Very High" :=
  ⟨(claim_C7_risk_assessment [] [] 4).2.2.2.2 30 150 (by norm_num)
      (by norm_num),
   ((claim_C7_risk_assessment [] [] 4).2.2.2.1 0 (by norm_num)).1 rfl,
   ((claim_C7_risk_assessment [] [] 4).2.2.2.1 10 (by norm_num)).2.1
      (by norm_num) (by norm_num),
   ((claim_C7_risk_assessment [] [] 4).2.2.2.1 30 (by norm_num)).2.2.1
      (by norm_num) (by norm_num),
   ((claim_C7_risk_assessment [] [] 4).2.2.2.1 150 (by norm_num)).2.2.2.1
      (by norm_num) (by norm_num),
   ((claim_C7_risk_assessment [] [] 4).2.2.2.1 250 (by norm_num)).2.2.2.2
      (by norm_num)⟩

/-- Claim C10: an unknown `max_risk_level` string silently falls back to
ceiling ordinal 2, i.e. filtering behaves exactly as with `'Medium'`. -/
theorem claim_C10_unknown_risk_level (df : List AssessedRow) (lvl : String)
    (h : lvl ∉ risk_order.map Prod.fst) :
    filter_by_offtarget_risk df lvl = filter_by_offtarget_risk df "Medium" := by
  simp only [filter_by_offtarget_risk]
  rw [lookup_eq_none_of_not_mem_fst h]
  rfl

/-- A concrete assessed row for the C10 witness. -/
def exAssessedRow : AssessedRow :=
  ⟨⟨⟨exGuideA, 50, false, 100⟩, 1⟩, 0, 0, "Low"⟩

/-- Witness for C10 at the unknown level `"Extreme"`. -/
theorem claim_C10_witness :
    ("Extreme" ∉ risk_order.map Prod.fst) ∧
      filter_by_offtarget_risk [exAssessedRow] "Extreme" =
        filter_by_offtarget_risk [exAssessedRow] "Medium" :=
  ⟨by decide,
   claim_C10_unknown_risk_level [exAssessedRow] "Extreme" (by decide)⟩

/-! ## Claim C5: the reverse-strand round trip -/

theorem pySlice_map (f : Char → Char) (l : List Char) (a b : ℕ) :
    pySlice (l.map f) a b = (pySlice l a b).map f := by
  rw [pySlice, pySlice, ← List.map_drop, ← List.map_take]

theorem pySlice_reverse {l : List Char} {a b : ℕ} (hab : a ≤ b)
    (hb : b ≤ l.length) :
    pySlice l.reverse a b = (pySlice l (l.length - b) (l.length - a)).reverse := by
  rw [pySlice, pySlice, List.drop_reverse, List.take_reverse, List.length_take]
  rw [show min (l.length - a) l.length - (b - a) = l.length - b by omega,
    List.drop_take]

/-- The reverse complement of the region `[pos, pos+23)` of the original
sequence, uppercased, is the slice `[p-20, p+3)` of the reverse complement
of the uppercased sequence, when `pos = len - p - 3` comes from a
reverse-strand PAM offset `p` with a full guide before it. -/
theorem pyUpper_reverse_complement_region (s : List Char) (p : ℕ)
    (h20 : 20 ≤ p) (hp3 : p + 3 ≤ s.length) :
    pyUpper (reverse_complement
        (pySlice s (s.length - p - 3) (s.length - p - 3 + 23))) =
      pySlice (reverse_complement (pyUpper s)) (p - 20) (p + 3) := by
  set n := s.length with hn
  set pos := n - p - 3 with hpos
  have hcomm : ∀ x : List Char,
      pyUpper (x.map complementChar) = (pyUpper x).map complementChar := by
    intro x
    rw [pyUpper, pyUpper, List.map_map, List.map_map]
    exact List.map_congr_left fun c _ => upperChar_complementChar c
  have hlen : ((pyUpper s).map complementChar).length = n := by
    rw [List.length_map, length_pyUpper]
  calc pyUpper (reverse_complement (pySlice s pos (pos + 23)))
      = ((pyUpper (pySlice s pos (pos + 23))).map complementChar).reverse := by
        rw [reverse_complement, pyUpper, List.map_reverse, ← pyUpper, hcomm]
    _ = (pySlice ((pyUpper s).map complementChar) pos (pos + 23)).reverse := by
        simp only [pyUpper, pySlice_map]
    _ = pySlice ((pyUpper s).map complementChar).reverse (p - 20) (p + 3) := by
        rw [pySlice_reverse (by omega) (by rw [hlen]; omega), hlen]
        congr 2
        all_goals omega
    _ = pySlice (reverse_complement (pyUpper s)) (p - 20) (p + 3) := by
        rw [reverse_complement]

theorem pySlice_window_head {l : List Char} {p : ℕ} (h20 : 20 ≤ p) :
    pySlice (pySlice l (p - 20) (p + 3)) 0 20 = pySlice l (p - 20) p := by
  rw [pySlice, pySlice, pySlice, show p + 3 - (p - 20) = 23 by omega,
    show p - (p - 20) = 20 by omega, List.drop_zero, List.take_take]
  rfl

theorem pySlice_window_tail {l : List Char} {p : ℕ} (h20 : 20 ≤ p) :
    pySlice (pySlice l (p - 20) (p + 3)) 20 23 = pySlice l p (p + 3) := by
  rw [pySlice, pySlice, pySlice, show p + 3 - (p - 20) = 23 by omega,
    show p + 3 - p = 3 by omega, List.drop_take, List.take_take,
    List.drop_drop, show p - 20 + 20 = p by omega]
  rfl

/-- Claim C5: for every guide found on the reverse strand at forward
coordinate `pos = len(sequence) - p - 3`, taking the reverse complement of
the region `[pos, pos+23)` of the original sequence and re-scanning it
forward reproduces the same guide sequence / PAM sequence pair (at PAM
offset 20 of the 23-base window). -/
theorem claim_C5_reverse_roundtrip (s : List Char) (g : Guide)
    (hg : g ∈ find_all_guides s) (hstrand : g.strand = '-') :
    ∃ g' ∈ find_all_guides
        (reverse_complement (pySlice s g.pam_site (g.pam_site + 23))),
      g'.strand = '+' ∧ g'.guide_sequence = g.guide_sequence ∧
        g'.pam_sequence = g.pam_sequence := by
  rcases mem_find_all_guides.mp hg with ⟨p, gd, hp, he, rfl⟩ | ⟨p, gd, hp, he, rfl⟩
  · have hcontra : ('+' : Char) = '-' := hstrand
    exact absurd hcontra (by decide)
  · set u := pyUpper s with hu
    set rev := reverse_complement u with hrev
    have hupperrev : pyUpper rev = rev := pyUpper_reverse_complement_pyUpper s
    have hrevlen : rev.length = s.length := by
      rw [hrev, length_reverse_complement, hu, length_pyUpper]
    obtain ⟨h20, hple, hgd⟩ := extract_guide_sequence_eq_some.mp he
    rw [hupperrev] at hgd
    have hp3 : p + 3 ≤ rev.length := find_pam_sites_add_three_le hp
    have hp3' : p + 3 ≤ s.length := by omega
    have hGG := mem_find_pam_sites.mp hp
    rw [hupperrev] at hGG
    dsimp only
    have hreg : pyUpper (reverse_complement
        (pySlice s (s.length - p - 3) (s.length - p - 3 + 23))) =
        pySlice rev (p - 20) (p + 3) := by
      rw [hrev, hu]
      exact pyUpper_reverse_complement_region s p h20 hp3'
    set w := reverse_complement
      (pySlice s (s.length - p - 3) (s.length - p - 3 + 23)) with hw
    have hidem : pyUpper (pyUpper w) = pySlice rev (p - 20) (p + 3) := by
      rw [pyUpper_idem, hreg]
    have h21 : (pyUpper (pyUpper w))[20 + 1]? = some 'G' := by
      rw [hidem, getElem?_pySlice (by omega),
        show p - 20 + (20 + 1) = p + 1 by omega]
      exact hGG.1
    have h22 : (pyUpper (pyUpper w))[20 + 2]? = some 'G' := by
      rw [hidem, getElem?_pySlice (by omega),
        show p - 20 + (20 + 2) = p + 2 by omega]
      exact hGG.2
    have hpam20 : 20 ∈ find_pam_sites (pyUpper w) :=
      mem_find_pam_sites.mpr ⟨h21, h22⟩
    have hwlen : (pyUpper w).length = 23 := by
      rw [length_pyUpper, hw, length_reverse_complement, length_pySlice]
      omega
    have hext : extract_guide_sequence (pyUpper w) 20 =
        some (pySlice rev (p - 20) p) := by
      rw [extract_guide_sequence_eq_some]
      refine ⟨le_refl 20, by omega, ?_⟩
      rw [hidem, show 20 - 20 = 0 from rfl, pySlice_window_head h20]
    refine ⟨⟨pySlice rev (p - 20) p, 20, pySlice (pyUpper w) 20 (20 + 3), '+',
      pySlice rev (p - 20) p ++ pySlice (pyUpper w) 20 (20 + 3)⟩,
      mem_find_all_guides.mpr (Or.inl ⟨20, _, hpam20, hext, rfl⟩),
      rfl, hgd.symm, ?_⟩
    show pySlice (pyUpper w) 20 (20 + 3) = pySlice rev p (p + 3)
    rw [show (20:ℕ) + 3 = 23 from rfl, ← pyUpper_idem w, hidem,
      pySlice_window_tail h20]

/-- A 23-base sequence whose only guide lies on the reverse strand. -/
def exRevSeq : List Char := "CCATGCATGCATGCATGCATGCA".toList

/-- The reverse-strand guide that `find_all_guides` finds in `exRevSeq`. -/
def exRevGuide : Guide :=
  ⟨"TGCATGCATGCATGCATGCA".toList, 0, "TGG".toList, '-',
   "TGCATGCATGCATGCATGCATGG".toList⟩

/-- Witness for C5: the round trip at the reverse-strand guide of
`exRevSeq`. -/
theorem claim_C5_witness :
    exRevGuide ∈ find_all_guides exRevSeq ∧ exRevGuide.strand = '-' ∧
      ∃ g' ∈ find_all_guides
          (reverse_complement (pySlice exRevSeq exRevGuide.pam_site
            (exRevGuide.pam_site + 23))),
        g'.strand = '+' ∧ g'.guide_sequence = exRevGuide.guide_sequence ∧
          g'.pam_sequence = exRevGuide.pam_sequence :=
  ⟨by decide, rfl,
   claim_C5_reverse_roundtrip exRevSeq exRevGuide (by decide) rfl⟩

end CrisprDesign
